import Mathlib

/-!
# Formal model of the arcball crate (`src/lib.rs`)

A shallow embedding of the Shoemake arcball camera implemented in
`src/lib.rs`.  `f32` arithmetic is modelled over `ℝ`.  The external
`ultraviolet` types are modelled by their mathematical semantics:

* `Mat4` is `Matrix (Fin 4) (Fin 4) ℝ` (column-major in Rust; entry
  access `m[c][r]` in Rust is entry `(row r, column c)`, so the Rust
  expression `translation[3][3]` is the entry at row 3, column 3).
* `Mat4::from_translation v` is the homogeneous translation matrix.
* `Mat4::inversed` computes `adjugate / det`, i.e. Mathlib's
  nonsingular inverse `M⁻¹`.
* `Rotor3` is modelled through its quaternion components `[x, y, z, w]`
  (`w` the scalar part), the representation used by the code via
  `Rotor3::from_quaternion_array`; rotor composition is quaternion
  multiplication and `Mat3::from(rotor)` is the (homogeneous-form)
  quaternion rotation matrix.
-/

noncomputable section

/-- `ultraviolet::vec::Vec2` over `ℝ`. -/
structure Vec2 where
  x : ℝ
  y : ℝ
deriving DecidableEq

/-- `ultraviolet::vec::Vec3` over `ℝ`. -/
structure Vec3 where
  x : ℝ
  y : ℝ
  z : ℝ
deriving DecidableEq

/-- `ultraviolet::rotor::Rotor3`, represented by the quaternion
components `[x, y, z, w]` of `Rotor3::from_quaternion_array` /
`into_quaternion_array` (`w` is the scalar part). -/
structure Rotor3 where
  x : ℝ
  y : ℝ
  z : ℝ
  w : ℝ
deriving DecidableEq

namespace Rotor3

/-- `Rotor3::identity()`: the identity rotation, quaternion `(0,0,0,1)`. -/
def identity : Rotor3 := ⟨0, 0, 0, 1⟩

/-- Rotor composition `a * b`, i.e. the Hamilton quaternion product. -/
def mul (a b : Rotor3) : Rotor3 :=
  ⟨a.w * b.x + a.x * b.w + a.y * b.z - a.z * b.y,
   a.w * b.y - a.x * b.z + a.y * b.w + a.z * b.x,
   a.w * b.z + a.x * b.y - a.y * b.x + a.z * b.w,
   a.w * b.w - a.x * b.x - a.y * b.y - a.z * b.z⟩

/-- Squared norm of the quaternion. -/
def normSq (q : Rotor3) : ℝ := q.x ^ 2 + q.y ^ 2 + q.z ^ 2 + q.w ^ 2

/-- Quaternion conjugate (rotor reversal). -/
def conj (q : Rotor3) : Rotor3 := ⟨-q.x, -q.y, -q.z, q.w⟩

end Rotor3

/-- `ultraviolet::mat::Mat4` over `ℝ`. -/
abbrev Mat4 := Matrix (Fin 4) (Fin 4) ℝ

/-- `Mat4::from_translation(v)`: homogeneous translation matrix. -/
def fromTranslation (v : Vec3) : Mat4 :=
  !![1, 0, 0, v.x;
     0, 1, 0, v.y;
     0, 0, 1, v.z;
     0, 0, 0, 1]

/-- `Mat3::from(rotor)`: the rotation matrix of the quaternion
`(x, y, z, w)` in its homogeneous (degree-2) form; for a unit
quaternion this is the usual `1 - 2(y²+z²), …` matrix. -/
def rotorMat3 (q : Rotor3) : Matrix (Fin 3) (Fin 3) ℝ :=
  !![q.w ^ 2 + q.x ^ 2 - q.y ^ 2 - q.z ^ 2, 2 * (q.x * q.y - q.w * q.z), 2 * (q.x * q.z + q.w * q.y);
     2 * (q.x * q.y + q.w * q.z), q.w ^ 2 - q.x ^ 2 + q.y ^ 2 - q.z ^ 2, 2 * (q.y * q.z - q.w * q.x);
     2 * (q.x * q.z - q.w * q.y), 2 * (q.y * q.z + q.w * q.x), q.w ^ 2 - q.x ^ 2 - q.y ^ 2 + q.z ^ 2]

/-- `Mat3::into_homogeneous()`: embed a 3×3 linear map as a 4×4
homogeneous matrix. -/
def homog (m : Matrix (Fin 3) (Fin 3) ℝ) : Mat4 :=
  !![m 0 0, m 0 1, m 0 2, 0;
     m 1 0, m 1 1, m 1 2, 0;
     m 2 0, m 2 1, m 2 2, 0;
     0, 0, 0, 1]

/-- Rust `f32::clamp(lo, hi)`. -/
def clamp (lo hi x : ℝ) : ℝ := min hi (max lo x)

/-- The camera state `struct ArcballCamera`. -/
structure ArcballCamera where
  translation : Mat4
  center_translation : Mat4
  rotation : Rotor3
  camera : Mat4
  inv_camera : Mat4
  zoom_speed : ℝ
  inv_screen : ℝ × ℝ

namespace ArcballCamera

/-- `ArcballCamera::update_camera`:
`camera = translation * Mat3::from(rotation).into_homogeneous() * center_translation`,
then `inv_camera = camera.inversed()`. -/
def update_camera (c : ArcballCamera) : ArcballCamera :=
  let cam := c.translation * homog (rotorMat3 c.rotation) * c.center_translation
  { c with camera := cam, inv_camera := cam⁻¹ }

/-- `ArcballCamera::new(center, zoom_speed, screen)`. -/
def new (center : Vec3) (zoom_speed : ℝ) (screen : ℝ × ℝ) : ArcballCamera :=
  update_camera
    { translation := fromTranslation ⟨0, 0, -1⟩
      center_translation := (fromTranslation center)⁻¹
      rotation := Rotor3.identity
      camera := 1
      inv_camera := 1
      zoom_speed := zoom_speed
      inv_screen := (1 / screen.1, 1 / screen.2) }

/-- `ArcballCamera::get_mat4`. -/
def get_mat4 (c : ArcballCamera) : Mat4 := c.camera

/-- `ArcballCamera::get_inv_camera`. -/
def get_inv_camera (c : ArcballCamera) : Mat4 := c.inv_camera

/-- `ArcballCamera::eye_pos`: the xyz of column 3 of `inv_camera`
(`inv_camera[3].x/y/z` in Rust's column-major indexing). -/
def eye_pos (c : ArcballCamera) : Vec3 :=
  ⟨c.inv_camera 0 3, c.inv_camera 1 3, c.inv_camera 2 3⟩

/-- `ArcballCamera::screen_to_arcball(p)`. -/
def screen_to_arcball (p : Vec2) : Rotor3 :=
  let dist := p.x ^ 2 + p.y ^ 2
  if dist ≤ 1 then
    ⟨p.x, p.y, Real.sqrt (1 - dist), 0⟩
  else
    ⟨p.x / Real.sqrt dist, p.y / Real.sqrt dist, 0, 0⟩

/-- `ArcballCamera::rotate(mouse_prev, mouse_cur)`. -/
def rotate (c : ArcballCamera) (mouse_prev mouse_cur : Vec2) : ArcballCamera :=
  let m_cur : Vec2 :=
    ⟨clamp (-1) 1 (mouse_cur.x * 2 * c.inv_screen.1 - 1),
     clamp (-1) 1 (1 - 2 * mouse_cur.y * c.inv_screen.2)⟩
  let m_prev : Vec2 :=
    ⟨clamp (-1) 1 (mouse_prev.x * 2 * c.inv_screen.1 - 1),
     clamp (-1) 1 (1 - 2 * mouse_prev.y * c.inv_screen.2)⟩
  let mouse_cur_ball := screen_to_arcball m_cur
  let mouse_prev_ball := screen_to_arcball m_prev
  update_camera
    { c with rotation := Rotor3.mul (Rotor3.mul mouse_cur_ball mouse_prev_ball) c.rotation }

/-- `ArcballCamera::zoom(amount, elapsed)`. -/
def zoom (c : ArcballCamera) (amount elapsed : ℝ) : ArcballCamera :=
  update_camera
    { c with translation :=
        fromTranslation ⟨0, 0, amount * c.zoom_speed * elapsed⟩ * c.translation }

/-- `ArcballCamera::pan(mouse_delta)`.  `self.translation[3][3]` is the
entry at row 3, column 3 of the zoom translation matrix. -/
def pan (c : ArcballCamera) (mouse_delta : Vec2) : ArcballCamera :=
  let zoom_dist := |c.translation 3 3|
  let delta : Fin 4 → ℝ :=
    ![mouse_delta.x * c.inv_screen.1 * zoom_dist,
      -mouse_delta.y * c.inv_screen.2 * zoom_dist,
      0, 0]
  let motion := c.inv_camera.mulVec delta
  update_camera
    { c with center_translation :=
        fromTranslation ⟨motion 0, motion 1, motion 2⟩ * c.center_translation }

/-- `ArcballCamera::update_screen(width, height)`. -/
def update_screen (c : ArcballCamera) (width height : ℝ) : ArcballCamera :=
  { c with inv_screen := (1 / width, 1 / height) }

end ArcballCamera

/-- The states reachable through the public API: construction followed by
any sequence of `rotate`, `zoom`, `pan`, `update_screen`. -/
inductive Reachable : ArcballCamera → Prop
  | base (center : Vec3) (zoom_speed : ℝ) (screen : ℝ × ℝ) :
      Reachable (ArcballCamera.new center zoom_speed screen)
  | rot {c : ArcballCamera} (mp mc : Vec2) :
      Reachable c → Reachable (c.rotate mp mc)
  | zm {c : ArcballCamera} (amount elapsed : ℝ) :
      Reachable c → Reachable (c.zoom amount elapsed)
  | pn {c : ArcballCamera} (d : Vec2) :
      Reachable c → Reachable (c.pan d)
  | scr {c : ArcballCamera} (w h : ℝ) :
      Reachable c → Reachable (c.update_screen w h)

/-- The `dist <= 1` branch formula of `screen_to_arcball`: the point on
the front hemisphere above `p`. -/
def arcballInside (p : Vec2) : Rotor3 :=
  ⟨p.x, p.y, Real.sqrt (1 - (p.x ^ 2 + p.y ^ 2)), 0⟩

/-- The `dist > 1` branch formula of `screen_to_arcball`: `p` normalized
to unit length in the xy-plane, with z set to 0. -/
def arcballOutside (p : Vec2) : Rotor3 :=
  ⟨p.x / Real.sqrt (p.x ^ 2 + p.y ^ 2), p.y / Real.sqrt (p.x ^ 2 + p.y ^ 2), 0, 0⟩

/-- Structural invariant maintained by every operation: the zoom and pan
matrices are genuine translation matrices, the orientation is a unit
quaternion, and the cached view matrices agree with the transform
fields. -/
def GoodState (c : ArcballCamera) : Prop :=
  (∃ v : Vec3, c.translation = fromTranslation v) ∧
  (∃ u : Vec3, c.center_translation = fromTranslation u) ∧
  Rotor3.normSq c.rotation = 1 ∧
  c.camera = c.translation * homog (rotorMat3 c.rotation) * c.center_translation ∧
  c.inv_camera = c.camera⁻¹

/-! ## Matrix lemmas -/

lemma fromTranslation_mul (a b : Vec3) :
    fromTranslation a * fromTranslation b =
      fromTranslation ⟨a.x + b.x, a.y + b.y, a.z + b.z⟩ := by
  ext i j
  fin_cases i <;> fin_cases j <;>
    simp [fromTranslation, Matrix.mul_apply, Fin.sum_univ_four, Matrix.vecHead, Matrix.vecTail] <;> ring

lemma fromTranslation_zero : fromTranslation ⟨0, 0, 0⟩ = 1 := by
  ext i j
  fin_cases i <;> fin_cases j <;>
    simp [fromTranslation, Matrix.one_apply, Matrix.vecHead, Matrix.vecTail]

lemma fromTranslation_inv (v : Vec3) :
    (fromTranslation v)⁻¹ = fromTranslation ⟨-v.x, -v.y, -v.z⟩ := by
  apply Matrix.inv_eq_right_inv
  rw [fromTranslation_mul]
  simp [fromTranslation_zero]

lemma homog_mul (a b : Matrix (Fin 3) (Fin 3) ℝ) :
    homog a * homog b = homog (a * b) := by
  ext i j
  fin_cases i <;> fin_cases j <;>
    simp [homog, Matrix.mul_apply, Fin.sum_univ_four, Fin.sum_univ_three, Matrix.vecHead, Matrix.vecTail]

lemma homog_one : homog 1 = 1 := by
  ext i j
  fin_cases i <;> fin_cases j <;>
    simp [homog, Matrix.one_apply, Matrix.vecHead, Matrix.vecTail]

lemma rotorMat3_identity : rotorMat3 Rotor3.identity = 1 := by
  ext i j
  fin_cases i <;> fin_cases j <;>
    simp [rotorMat3, Rotor3.identity, Matrix.one_apply, Matrix.vecHead, Matrix.vecTail]

lemma rotorMat3_mul_conj (q : Rotor3) :
    rotorMat3 q * rotorMat3 (Rotor3.conj q) =
      (Rotor3.normSq q) ^ 2 • (1 : Matrix (Fin 3) (Fin 3) ℝ) := by
  ext i j
  fin_cases i <;> fin_cases j <;>
    simp [rotorMat3, Rotor3.conj, Rotor3.normSq, Matrix.mul_apply,
      Fin.sum_univ_three, Matrix.one_apply, Matrix.vecHead, Matrix.vecTail] <;> ring

lemma conj_conj (q : Rotor3) : Rotor3.conj (Rotor3.conj q) = q := by
  simp [Rotor3.conj]

lemma normSq_conj (q : Rotor3) : Rotor3.normSq (Rotor3.conj q) = Rotor3.normSq q := by
  simp [Rotor3.conj, Rotor3.normSq]

lemma rotorMat3_mul_conj_unit {q : Rotor3} (h : Rotor3.normSq q = 1) :
    rotorMat3 q * rotorMat3 (Rotor3.conj q) = 1 := by
  rw [rotorMat3_mul_conj, h]
  simp

lemma rotorMat3_conj_mul_unit {q : Rotor3} (h : Rotor3.normSq q = 1) :
    rotorMat3 (Rotor3.conj q) * rotorMat3 q = 1 := by
  have := rotorMat3_mul_conj_unit (q := Rotor3.conj q) (by rw [normSq_conj, h])
  rwa [conj_conj] at this

lemma fromTranslation_mul_neg (v : Vec3) :
    fromTranslation v * fromTranslation ⟨-v.x, -v.y, -v.z⟩ = 1 := by
  rw [fromTranslation_mul]
  simp [fromTranslation_zero]

lemma fromTranslation_neg_mul (v : Vec3) :
    fromTranslation ⟨-v.x, -v.y, -v.z⟩ * fromTranslation v = 1 := by
  rw [fromTranslation_mul]
  simp [fromTranslation_zero]

lemma fromTranslation_mulVec (v : Vec3) (d : Fin 4 → ℝ) :
    (fromTranslation v).mulVec d =
      ![d 0 + v.x * d 3, d 1 + v.y * d 3, d 2 + v.z * d 3, d 3] := by
  funext i
  fin_cases i <;>
    simp [fromTranslation, Matrix.mulVec, Matrix.dotProduct, Fin.sum_univ_four,
      Matrix.vecHead, Matrix.vecTail]

lemma fromTranslation_apply_33 (v : Vec3) : fromTranslation v 3 3 = 1 := by
  simp [fromTranslation]

/-! ## Rotor lemmas -/

lemma normSq_mul (a b : Rotor3) :
    Rotor3.normSq (Rotor3.mul a b) = Rotor3.normSq a * Rotor3.normSq b := by
  simp only [Rotor3.mul, Rotor3.normSq]
  ring

lemma normSq_identity : Rotor3.normSq Rotor3.identity = 1 := by
  simp [Rotor3.identity, Rotor3.normSq]

lemma screen_to_arcball_normSq (p : Vec2) :
    Rotor3.normSq (ArcballCamera.screen_to_arcball p) = 1 := by
  unfold ArcballCamera.screen_to_arcball
  by_cases h : p.x ^ 2 + p.y ^ 2 ≤ 1
  · simp only [h, if_true, Rotor3.normSq]
    rw [Real.sq_sqrt (by linarith)]
    ring
  · have hd : (0 : ℝ) < p.x ^ 2 + p.y ^ 2 := by
      push_neg at h
      linarith
    simp only [h, if_false, Rotor3.normSq]
    rw [div_pow, div_pow, Real.sq_sqrt hd.le]
    rw [div_add_div_same]
    rw [div_self hd.ne']
    norm_num

/-! ## The reachable-state invariant -/

lemma exists_fromTranslation_mul (w : Vec3) {M : Mat4}
    (h : ∃ u : Vec3, M = fromTranslation u) :
    ∃ u : Vec3, fromTranslation w * M = fromTranslation u := by
  obtain ⟨u, hu⟩ := h
  exact ⟨⟨w.x + u.x, w.y + u.y, w.z + u.z⟩, by rw [hu, fromTranslation_mul]⟩

lemma goodState_update_camera (c : ArcballCamera)
    (h1 : ∃ v : Vec3, c.translation = fromTranslation v)
    (h2 : ∃ u : Vec3, c.center_translation = fromTranslation u)
    (h3 : Rotor3.normSq c.rotation = 1) :
    GoodState c.update_camera := by
  refine ⟨h1, h2, h3, rfl, rfl⟩

lemma reachable_goodState {c : ArcballCamera} (h : Reachable c) : GoodState c := by
  induction h with
  | base center zoom_speed screen =>
      apply goodState_update_camera
      · exact ⟨⟨0, 0, -1⟩, rfl⟩
      · exact ⟨⟨-center.x, -center.y, -center.z⟩, fromTranslation_inv center⟩
      · exact normSq_identity
  | rot mp mc hc ih =>
      apply goodState_update_camera
      · exact ih.1
      · exact ih.2.1
      · show Rotor3.normSq (Rotor3.mul (Rotor3.mul _ _) _) = 1
        rw [normSq_mul, normSq_mul, screen_to_arcball_normSq,
          screen_to_arcball_normSq, ih.2.2.1]
        norm_num
  | zm amount elapsed hc ih =>
      apply goodState_update_camera
      · exact exists_fromTranslation_mul _ ih.1
      · exact ih.2.1
      · exact ih.2.2.1
  | pn d hc ih =>
      apply goodState_update_camera
      · exact ih.1
      · exact exists_fromTranslation_mul _ ih.2.1
      · exact ih.2.2.1
  | scr w h hc ih => exact ih

lemma fromTranslation_apply_03 (v : Vec3) : fromTranslation v 0 3 = v.x := by
  simp [fromTranslation]

lemma fromTranslation_apply_13 (v : Vec3) : fromTranslation v 1 3 = v.y := by
  simp [fromTranslation]

lemma fromTranslation_apply_23 (v : Vec3) : fromTranslation v 2 3 = v.z := by
  simp [fromTranslation]

lemma sandwich_inverse {q : Rotor3} (hq2 : Rotor3.normSq q = 1) (v u : Vec3) :
    (fromTranslation v * homog (rotorMat3 q) * fromTranslation u) *
      (fromTranslation ⟨-u.x, -u.y, -u.z⟩ * homog (rotorMat3 (Rotor3.conj q)) *
        fromTranslation ⟨-v.x, -v.y, -v.z⟩) = 1 ∧
    (fromTranslation ⟨-u.x, -u.y, -u.z⟩ * homog (rotorMat3 (Rotor3.conj q)) *
        fromTranslation ⟨-v.x, -v.y, -v.z⟩) *
      (fromTranslation v * homog (rotorMat3 q) * fromTranslation u) = 1 := by
  constructor
  · have e1 : fromTranslation u * (fromTranslation ⟨-u.x, -u.y, -u.z⟩ *
        (homog (rotorMat3 (Rotor3.conj q)) * fromTranslation ⟨-v.x, -v.y, -v.z⟩)) =
        homog (rotorMat3 (Rotor3.conj q)) * fromTranslation ⟨-v.x, -v.y, -v.z⟩ := by
      rw [← mul_assoc, fromTranslation_mul_neg, one_mul]
    have e2 : homog (rotorMat3 q) * (homog (rotorMat3 (Rotor3.conj q)) *
        fromTranslation ⟨-v.x, -v.y, -v.z⟩) = fromTranslation ⟨-v.x, -v.y, -v.z⟩ := by
      rw [← mul_assoc, homog_mul, rotorMat3_mul_conj_unit hq2, homog_one, one_mul]
    simp only [mul_assoc]
    rw [e1, e2, fromTranslation_mul_neg]
  · have f1 : fromTranslation ⟨-v.x, -v.y, -v.z⟩ *
        (fromTranslation v * (homog (rotorMat3 q) * fromTranslation u)) =
        homog (rotorMat3 q) * fromTranslation u := by
      rw [← mul_assoc, fromTranslation_neg_mul, one_mul]
    have f2 : homog (rotorMat3 (Rotor3.conj q)) *
        (homog (rotorMat3 q) * fromTranslation u) = fromTranslation u := by
      rw [← mul_assoc, homog_mul, rotorMat3_conj_mul_unit hq2, homog_one, one_mul]
    simp only [mul_assoc]
    rw [f1, f2, fromTranslation_neg_mul]

/-! ## Claim theorems -/

/-- **C2.** `rotate(mousePrev, mouseCur)` maps each pixel position to NDC
via `x' = clamp(2*x*invW - 1, -1, 1)`, `y' = clamp(1 - 2*y*invH, -1, 1)`,
sets the new orientation to
`screen_to_arcball(cur_NDC) * screen_to_arcball(prev_NDC) * old_orientation`
(incremental rotation left-multiplied, no other rotation input), and then
recomputes the view matrices; all other fields are unchanged. -/
theorem rotate_spec (c : ArcballCamera) (mouse_prev mouse_cur : Vec2) :
    (c.rotate mouse_prev mouse_cur).rotation =
      Rotor3.mul
        (Rotor3.mul
          (ArcballCamera.screen_to_arcball
            ⟨clamp (-1) 1 (2 * mouse_cur.x * c.inv_screen.1 - 1),
             clamp (-1) 1 (1 - 2 * mouse_cur.y * c.inv_screen.2)⟩)
          (ArcballCamera.screen_to_arcball
            ⟨clamp (-1) 1 (2 * mouse_prev.x * c.inv_screen.1 - 1),
             clamp (-1) 1 (1 - 2 * mouse_prev.y * c.inv_screen.2)⟩))
        c.rotation ∧
    (c.rotate mouse_prev mouse_cur).translation = c.translation ∧
    (c.rotate mouse_prev mouse_cur).center_translation = c.center_translation ∧
    (c.rotate mouse_prev mouse_cur).zoom_speed = c.zoom_speed ∧
    (c.rotate mouse_prev mouse_cur).inv_screen = c.inv_screen ∧
    (c.rotate mouse_prev mouse_cur).camera =
      (c.rotate mouse_prev mouse_cur).translation *
        homog (rotorMat3 (c.rotate mouse_prev mouse_cur).rotation) *
        (c.rotate mouse_prev mouse_cur).center_translation ∧
    (c.rotate mouse_prev mouse_cur).inv_camera =
      ((c.rotate mouse_prev mouse_cur).camera)⁻¹ := by
  rw [show (2 : ℝ) * mouse_cur.x * c.inv_screen.1 - 1 =
        mouse_cur.x * 2 * c.inv_screen.1 - 1 from by ring,
      show (2 : ℝ) * mouse_prev.x * c.inv_screen.1 - 1 =
        mouse_prev.x * 2 * c.inv_screen.1 - 1 from by ring]
  exact ⟨rfl, rfl, rfl, rfl, rfl, rfl, rfl⟩

/-- **C3.** With `dist = x² + y²`, `screen_to_arcball` returns the
pure-vector quaternion `(x, y, sqrt(1 - dist), 0)` when `dist ≤ 1`, and
otherwise the point normalized to unit length in the xy-plane with z set
to 0. -/
theorem screen_to_arcball_spec (p : Vec2) :
    (p.x ^ 2 + p.y ^ 2 ≤ 1 →
      ArcballCamera.screen_to_arcball p =
        ⟨p.x, p.y, Real.sqrt (1 - (p.x ^ 2 + p.y ^ 2)), 0⟩) ∧
    (1 < p.x ^ 2 + p.y ^ 2 →
      ArcballCamera.screen_to_arcball p =
        ⟨p.x / Real.sqrt (p.x ^ 2 + p.y ^ 2),
         p.y / Real.sqrt (p.x ^ 2 + p.y ^ 2), 0, 0⟩ ∧
      (ArcballCamera.screen_to_arcball p).x ^ 2 +
        (ArcballCamera.screen_to_arcball p).y ^ 2 = 1) := by
  constructor
  · intro h
    simp [ArcballCamera.screen_to_arcball, h]
  · intro h
    have h' : ¬ p.x ^ 2 + p.y ^ 2 ≤ 1 := not_le.mpr h
    have hd : (0 : ℝ) < p.x ^ 2 + p.y ^ 2 := by linarith
    refine ⟨by simp [ArcballCamera.screen_to_arcball, h'], ?_⟩
    simp only [ArcballCamera.screen_to_arcball, h', if_false]
    rw [div_pow, div_pow, Real.sq_sqrt hd.le, div_add_div_same, div_self hd.ne']

/-- Witness for `screen_to_arcball_spec`: both hypotheses discharged at
concrete inputs `(1/2, 0)` (inside the disk) and `(3, 4)` (outside). -/
theorem screen_to_arcball_spec_witness :
    (((1 : ℝ) / 2) ^ 2 + (0 : ℝ) ^ 2 ≤ 1 ∧
      ArcballCamera.screen_to_arcball ⟨1 / 2, 0⟩ =
        ⟨1 / 2, 0, Real.sqrt (1 - (((1 : ℝ) / 2) ^ 2 + (0 : ℝ) ^ 2)), 0⟩) ∧
    ((1 : ℝ) < 3 ^ 2 + 4 ^ 2 ∧
      ArcballCamera.screen_to_arcball ⟨3, 4⟩ =
        ⟨3 / Real.sqrt ((3 : ℝ) ^ 2 + (4 : ℝ) ^ 2),
         4 / Real.sqrt ((3 : ℝ) ^ 2 + (4 : ℝ) ^ 2), 0, 0⟩ ∧
      (ArcballCamera.screen_to_arcball ⟨3, 4⟩).x ^ 2 +
        (ArcballCamera.screen_to_arcball ⟨3, 4⟩).y ^ 2 = 1) :=
  ⟨⟨by norm_num, (screen_to_arcball_spec ⟨1 / 2, 0⟩).1 (by norm_num)⟩,
   ⟨by norm_num, (screen_to_arcball_spec ⟨3, 4⟩).2 (by norm_num)⟩⟩

/-- **C5.** `zoom(amount, elapsed)` left-multiplies
`translation(0, 0, amount * zoom_speed * elapsed)` onto the existing zoom
translation, changes no other transform field, and applies no bound or
clamping: the accumulated z offset may reach zero or change sign (shown
at concrete inputs where it becomes `0` and `+1` starting from `-1`). -/
theorem zoom_spec (c : ArcballCamera) (amount elapsed : ℝ) :
    (c.zoom amount elapsed).translation =
      fromTranslation ⟨0, 0, amount * c.zoom_speed * elapsed⟩ * c.translation ∧
    (c.zoom amount elapsed).center_translation = c.center_translation ∧
    (c.zoom amount elapsed).rotation = c.rotation ∧
    (c.zoom amount elapsed).zoom_speed = c.zoom_speed ∧
    (c.zoom amount elapsed).inv_screen = c.inv_screen ∧
    ((ArcballCamera.new ⟨0, 0, 0⟩ 1 (2, 2)).zoom 1 1).translation 2 3 = 0 ∧
    ((ArcballCamera.new ⟨0, 0, 0⟩ 1 (2, 2)).zoom 2 1).translation 2 3 = 1 := by
  refine ⟨rfl, rfl, rfl, rfl, rfl, ?_, ?_⟩
  · show (fromTranslation ⟨0, 0, 1 * 1 * 1⟩ * fromTranslation ⟨0, 0, -1⟩) 2 3 = 0
    rw [fromTranslation_mul, fromTranslation_apply_23]
    norm_num
  · show (fromTranslation ⟨0, 0, 2 * 1 * 1⟩ * fromTranslation ⟨0, 0, -1⟩) 2 3 = 1
    rw [fromTranslation_mul, fromTranslation_apply_23]
    norm_num

/-- **C6.** `update_screen(width, height)` changes only the inverse
screen dimensions; every transform field and both cached matrices are
unchanged, so `get_mat4` returns the same matrix. -/
theorem update_screen_spec (c : ArcballCamera) (width height : ℝ) :
    (c.update_screen width height).translation = c.translation ∧
    (c.update_screen width height).center_translation = c.center_translation ∧
    (c.update_screen width height).rotation = c.rotation ∧
    (c.update_screen width height).camera = c.camera ∧
    (c.update_screen width height).inv_camera = c.inv_camera ∧
    (c.update_screen width height).zoom_speed = c.zoom_speed ∧
    (c.update_screen width height).get_mat4 = c.get_mat4 ∧
    (c.update_screen width height).inv_screen = (1 / width, 1 / height) :=
  ⟨rfl, rfl, rfl, rfl, rfl, rfl, rfl, rfl⟩

/-- **C4.** Immediately after `new(center, s, [w, h])`, `eye_pos()` equals
`center + (0, 0, 1)` and the rotation is the identity. -/
theorem eye_pos_new (center : Vec3) (zoom_speed : ℝ) (screen : ℝ × ℝ) :
    (ArcballCamera.new center zoom_speed screen).eye_pos =
      ⟨center.x, center.y, center.z + 1⟩ ∧
    (ArcballCamera.new center zoom_speed screen).rotation = Rotor3.identity := by
  refine ⟨?_, rfl⟩
  have hinv : (ArcballCamera.new center zoom_speed screen).inv_camera =
      fromTranslation ⟨center.x, center.y, center.z + 1⟩ := by
    show (fromTranslation ⟨0, 0, -1⟩ * homog (rotorMat3 Rotor3.identity) *
        (fromTranslation center)⁻¹)⁻¹ = _
    rw [rotorMat3_identity, homog_one, mul_one, fromTranslation_inv,
      fromTranslation_mul, fromTranslation_inv]
    apply congrArg
    simp only [Vec3.mk.injEq]
    refine ⟨by ring, by ring, by ring⟩
  show (⟨(ArcballCamera.new center zoom_speed screen).inv_camera 0 3,
         (ArcballCamera.new center zoom_speed screen).inv_camera 1 3,
         (ArcballCamera.new center zoom_speed screen).inv_camera 2 3⟩ : Vec3) = _
  rw [hinv, fromTranslation_apply_03, fromTranslation_apply_13, fromTranslation_apply_23]

/-- **C7.** In every reachable camera state the orientation quaternion is
unit-length. -/
theorem orientation_unit {c : ArcballCamera} (h : Reachable c) :
    Rotor3.normSq c.rotation = 1 :=
  (reachable_goodState h).2.2.1

/-- Witness for `orientation_unit`: the hypothesis discharged at a
concrete reachable state (construction followed by one `rotate`). -/
theorem orientation_unit_witness :
    Reachable ((ArcballCamera.new ⟨0, 0, 0⟩ 1 (2, 2)).rotate ⟨0, 0⟩ ⟨1, 1⟩) ∧
    Rotor3.normSq ((ArcballCamera.new ⟨0, 0, 0⟩ 1 (2, 2)).rotate ⟨0, 0⟩ ⟨1, 1⟩).rotation = 1 :=
  ⟨Reachable.rot ⟨0, 0⟩ ⟨1, 1⟩ (Reachable.base ⟨0, 0, 0⟩ 1 (2, 2)),
   orientation_unit (Reachable.rot ⟨0, 0⟩ ⟨1, 1⟩ (Reachable.base ⟨0, 0, 0⟩ 1 (2, 2)))⟩

/-- **C8.** In every reachable camera state,
`get_inv_camera() * get_mat4()` is the 4×4 identity: the inverse view
matrix is recomputed synchronously, so no inconsistent pair is
observable. -/
theorem inv_camera_mul_camera {c : ArcballCamera} (h : Reachable c) :
    c.get_inv_camera * c.get_mat4 = 1 := by
  obtain ⟨⟨v, hv⟩, ⟨u, hu⟩, hq, hcam, hinv⟩ := reachable_goodState h
  have hcam' : c.camera =
      fromTranslation v * homog (rotorMat3 c.rotation) * fromTranslation u := by
    rw [hcam, hv, hu]
  have hs := sandwich_inverse hq v u
  have hinv2 : c.camera⁻¹ =
      fromTranslation ⟨-u.x, -u.y, -u.z⟩ * homog (rotorMat3 (Rotor3.conj c.rotation)) *
        fromTranslation ⟨-v.x, -v.y, -v.z⟩ := by
    apply Matrix.inv_eq_right_inv
    rw [hcam']
    exact hs.1
  show c.inv_camera * c.camera = 1
  rw [hinv, hinv2, hcam']
  exact hs.2

/-- Witness for `inv_camera_mul_camera`: discharged at a concrete
reachable state (construction, then a zoom, then a pan). -/
theorem inv_camera_mul_camera_witness :
    Reachable (((ArcballCamera.new ⟨1, 2, 3⟩ 1 (2, 2)).zoom 1 1).pan ⟨1, 0⟩) ∧
    ((((ArcballCamera.new ⟨1, 2, 3⟩ 1 (2, 2)).zoom 1 1).pan ⟨1, 0⟩).get_inv_camera *
      (((ArcballCamera.new ⟨1, 2, 3⟩ 1 (2, 2)).zoom 1 1).pan ⟨1, 0⟩).get_mat4) = 1 :=
  ⟨Reachable.pn ⟨1, 0⟩ (Reachable.zm 1 1 (Reachable.base ⟨1, 2, 3⟩ 1 (2, 2))),
   inv_camera_mul_camera
     (Reachable.pn ⟨1, 0⟩ (Reachable.zm 1 1 (Reachable.base ⟨1, 2, 3⟩ 1 (2, 2))))⟩

/-- **C9.** At the disk boundary `x² + y² = 1` both branch formulas of
the screen-to-arcball mapping agree: each yields the quaternion
`(x, y, 0, 0)`, so the mapping is continuous across `dist = 1`. -/
theorem arcball_boundary (x y : ℝ) (h : x ^ 2 + y ^ 2 = 1) :
    arcballInside ⟨x, y⟩ = ⟨x, y, 0, 0⟩ ∧
    arcballOutside ⟨x, y⟩ = ⟨x, y, 0, 0⟩ ∧
    ArcballCamera.screen_to_arcball ⟨x, y⟩ = ⟨x, y, 0, 0⟩ := by
  refine ⟨?_, ?_, ?_⟩
  · simp [arcballInside, h]
  · simp [arcballOutside, h]
  · simp [ArcballCamera.screen_to_arcball, h]

/-- Witness for `arcball_boundary`: discharged at the boundary point
`(3/5, 4/5)`. -/
theorem arcball_boundary_witness :
    ((3 : ℝ) / 5) ^ 2 + ((4 : ℝ) / 5) ^ 2 = 1 ∧
    (arcballInside ⟨3 / 5, 4 / 5⟩ = ⟨3 / 5, 4 / 5, 0, 0⟩ ∧
     arcballOutside ⟨3 / 5, 4 / 5⟩ = ⟨3 / 5, 4 / 5, 0, 0⟩ ∧
     ArcballCamera.screen_to_arcball ⟨3 / 5, 4 / 5⟩ = ⟨3 / 5, 4 / 5, 0, 0⟩) :=
  ⟨by norm_num, arcball_boundary (3 / 5) (4 / 5) (by norm_num)⟩

/-- **C10.** In every reachable camera state the entry
`translation[3][3]` read by `pan` equals exactly `1`, so the `zoom_dist`
factor `|translation[3][3]|` used by `pan` is the constant `1`. -/
theorem pan_zoom_dist_one {c : ArcballCamera} (h : Reachable c) :
    c.translation 3 3 = 1 ∧ |c.translation 3 3| = 1 := by
  obtain ⟨⟨v, hv⟩, -⟩ := reachable_goodState h
  rw [hv, fromTranslation_apply_33]
  exact ⟨rfl, abs_one⟩

/-- Witness for `pan_zoom_dist_one`: discharged at a concrete reachable
state that has been zoomed far out, where the entry is still `1`. -/
theorem pan_zoom_dist_one_witness :
    Reachable ((ArcballCamera.new ⟨0, 0, 0⟩ 1 (2, 2)).zoom (-5) 1) ∧
    (((ArcballCamera.new ⟨0, 0, 0⟩ 1 (2, 2)).zoom (-5) 1).translation 3 3 = 1 ∧
     |((ArcballCamera.new ⟨0, 0, 0⟩ 1 (2, 2)).zoom (-5) 1).translation 3 3| = 1) :=
  ⟨Reachable.zm (-5) 1 (Reachable.base ⟨0, 0, 0⟩ 1 (2, 2)),
   pan_zoom_dist_one (Reachable.zm (-5) 1 (Reachable.base ⟨0, 0, 0⟩ 1 (2, 2)))⟩

/-- Definitional unfolding of the pan update of `center_translation`. -/
lemma pan_center_eq (c : ArcballCamera) (d : Vec2) :
    (c.pan d).center_translation =
      fromTranslation
        ⟨(c.inv_camera.mulVec
            ![d.x * c.inv_screen.1 * |c.translation 3 3|,
              -d.y * c.inv_screen.2 * |c.translation 3 3|, 0, 0]) 0,
         (c.inv_camera.mulVec
            ![d.x * c.inv_screen.1 * |c.translation 3 3|,
              -d.y * c.inv_screen.2 * |c.translation 3 3|, 0, 0]) 1,
         (c.inv_camera.mulVec
            ![d.x * c.inv_screen.1 * |c.translation 3 3|,
              -d.y * c.inv_screen.2 * |c.translation 3 3|, 0, 0]) 2⟩ *
        c.center_translation := rfl

/-- **C1** (evaluation at the failing input): starting from
`new((0,0,0), 1, [2,2])` and zooming out with `zoom(-1, 1)`, the camera's
zoom translation reaches z-offset `-2` (zoom distance 2, versus `-1` at
construction), yet the factor `|translation[3][3]|` read by `pan` is
still `1`, and `pan(d)` accumulates exactly the same pan translation as
it does in the un-zoomed state: the world-space pan displacement is not
proportional to the zoom distance. -/
theorem pan_ignores_zoom_distance (d : Vec2) :
    ((ArcballCamera.new ⟨0, 0, 0⟩ 1 (2, 2)).zoom (-1) 1).translation 2 3 = -2 ∧
    (ArcballCamera.new ⟨0, 0, 0⟩ 1 (2, 2)).translation 2 3 = -1 ∧
    |((ArcballCamera.new ⟨0, 0, 0⟩ 1 (2, 2)).zoom (-1) 1).translation 3 3| = 1 ∧
    (((ArcballCamera.new ⟨0, 0, 0⟩ 1 (2, 2)).zoom (-1) 1).pan d).center_translation =
      ((ArcballCamera.new ⟨0, 0, 0⟩ 1 (2, 2)).pan d).center_translation := by
  have e1t : ((ArcballCamera.new ⟨0, 0, 0⟩ 1 (2, 2)).zoom (-1) 1).translation =
      fromTranslation ⟨0 + 0, 0 + 0, -1 * 1 * 1 + -1⟩ := by
    show fromTranslation ⟨0, 0, -1 * 1 * 1⟩ * fromTranslation ⟨0, 0, -1⟩ = _
    rw [fromTranslation_mul]
  have hz1 : |((ArcballCamera.new ⟨0, 0, 0⟩ 1 (2, 2)).zoom (-1) 1).translation 3 3| = 1 := by
    rw [e1t, fromTranslation_apply_33]
    exact abs_one
  have hz0 : |(ArcballCamera.new ⟨0, 0, 0⟩ 1 (2, 2)).translation 3 3| = 1 := by
    show |fromTranslation ⟨0, 0, -1⟩ 3 3| = 1
    rw [fromTranslation_apply_33]
    exact abs_one
  have hc0cam : (ArcballCamera.new ⟨0, 0, 0⟩ 1 (2, 2)).camera =
      fromTranslation ⟨0, 0, -1⟩ := by
    show fromTranslation ⟨0, 0, -1⟩ * homog (rotorMat3 Rotor3.identity) *
        (fromTranslation ⟨0, 0, 0⟩)⁻¹ = _
    rw [rotorMat3_identity, homog_one, mul_one, fromTranslation_zero, inv_one, mul_one]
  have hi0 : (ArcballCamera.new ⟨0, 0, 0⟩ 1 (2, 2)).inv_camera =
      fromTranslation ⟨0, 0, 1⟩ := by
    show ((ArcballCamera.new ⟨0, 0, 0⟩ 1 (2, 2)).camera)⁻¹ = _
    rw [hc0cam, fromTranslation_inv]
    norm_num
  have hc1cam : ((ArcballCamera.new ⟨0, 0, 0⟩ 1 (2, 2)).zoom (-1) 1).camera =
      fromTranslation ⟨0 + 0, 0 + 0, -1 * 1 * 1 + -1⟩ := by
    show fromTranslation ⟨0, 0, -1 * 1 * 1⟩ * fromTranslation ⟨0, 0, -1⟩ *
        homog (rotorMat3 Rotor3.identity) * (fromTranslation ⟨0, 0, 0⟩)⁻¹ = _
    rw [rotorMat3_identity, homog_one, mul_one, fromTranslation_zero, inv_one, mul_one,
      fromTranslation_mul]
  have hi1 : ((ArcballCamera.new ⟨0, 0, 0⟩ 1 (2, 2)).zoom (-1) 1).inv_camera =
      fromTranslation ⟨0, 0, 2⟩ := by
    show (((ArcballCamera.new ⟨0, 0, 0⟩ 1 (2, 2)).zoom (-1) 1).camera)⁻¹ = _
    rw [hc1cam, fromTranslation_inv]
    norm_num
  refine ⟨by rw [e1t, fromTranslation_apply_23]; norm_num,
          by show fromTranslation ⟨0, 0, -1⟩ 2 3 = -1; rw [fromTranslation_apply_23],
          hz1, ?_⟩
  rw [pan_center_eq, pan_center_eq, hz1, hz0, hi1, hi0]
  rw [show ((ArcballCamera.new ⟨0, 0, 0⟩ 1 (2, 2)).zoom (-1) 1).center_translation =
        (ArcballCamera.new ⟨0, 0, 0⟩ 1 (2, 2)).center_translation from rfl]
  rw [show ((ArcballCamera.new ⟨0, 0, 0⟩ 1 (2, 2)).zoom (-1) 1).inv_screen =
        (ArcballCamera.new ⟨0, 0, 0⟩ 1 (2, 2)).inv_screen from rfl]
  rw [fromTranslation_mulVec, fromTranslation_mulVec]
  norm_num
